import Mathlib

/-!
Verification of the go-configmgr layered configuration pipeline.

This file shallowly embeds the core of the `configmgr` Go package:
the value/key normalizer (`normalizeValue`, `normalizeKey`), the Store
(a map from normalized key to normalized value, modelled as an
association list with Go-map update semantics), the source loaders
(`LoadFromFile`, `LoadFiles`, `LoadFromDotEnv`, `LoadFromSysEnv`,
`LoadEncryptedFile`), the profile resolver (`LoadWithProfile`), the
default-application step of `Unmarshal` (`applyDefaults`), and the
JSON export/import round trip.

File-system access, environment lookup, the JSON/YAML/dotenv decoders
and the AES-GCM primitive are external collaborators of the core; they
are modelled as components of a `World` record, so every theorem is
quantified over their behaviour.  Machine integers appearing in the Go
code (`int`, `int64`) are modelled as `Int` with the explicit
64-bit-range check that `strconv` performs; Go `float64` values are
modelled as exact rationals carried opaquely (the Go core never
computes with them, it only passes them through or compares their
dynamic type).
-/

namespace ConfigMgr

/-! ### Go character and string primitives -/

/-- The `unicode.IsSpace` predicate used by `strings.TrimSpace`:
the Unicode `White_Space` code points. -/
def goIsSpace (c : Char) : Bool :=
  let n := c.toNat
  n = 9 || n = 10 || n = 11 || n = 12 || n = 13 || n = 32 ||
  n = 0x85 || n = 0xA0 || n = 0x1680 ||
  (0x2000 ≤ n && n ≤ 0x200A) ||
  n = 0x2028 || n = 0x2029 || n = 0x202F || n = 0x205F || n = 0x3000

/-- `strings.TrimSpace`: drop leading and trailing white space. -/
def goTrimSpace (s : String) : String :=
  ⟨((s.data.dropWhile goIsSpace).reverse.dropWhile goIsSpace).reverse⟩

/-- ASCII lower-casing of one character (the fragment of Go
`unicode.ToLower` relevant to file extensions and config keys). -/
def goLowerChar (c : Char) : Char :=
  if 65 ≤ c.toNat ∧ c.toNat ≤ 90 then Char.ofNat (c.toNat + 32) else c

/-- ASCII upper-casing of one character (the fragment of Go
`unicode.ToUpper` relevant to config keys). -/
def goUpperChar (c : Char) : Char :=
  if 97 ≤ c.toNat ∧ c.toNat ≤ 122 then Char.ofNat (c.toNat - 32) else c

/-- `strings.ToLower` (ASCII fragment). -/
def goToLower (s : String) : String := ⟨s.data.map goLowerChar⟩

/-- `strings.ToUpper` (ASCII fragment). -/
def goToUpper (s : String) : String := ⟨s.data.map goUpperChar⟩

/-- `strings.HasSuffix`. -/
def goHasSuffix (s suf : String) : Bool := decide (suf.data <:+ s.data)

/-- `strings.TrimSuffix`. -/
def goTrimSuffix (s suf : String) : String :=
  if goHasSuffix s suf then ⟨s.data.take (s.data.length - suf.data.length)⟩ else s

/-- Helper for `filepath.Ext`: walk the reversed path from the end,
accumulating the characters already passed (in original order); stop
at the first dot (returning the extension) or at a path separator. -/
def extFromRev : List Char → List Char → List Char
  | [], _ => []
  | c :: rest, acc =>
    if c = '/' then []
    else if c = '.' then c :: acc
    else extFromRev rest (c :: acc)

/-- `path/filepath.Ext`: the suffix beginning at the final dot in the
final slash-separated element of the path; empty if there is no dot. -/
def goExt (s : String) : String := ⟨extFromRev s.data.reverse []⟩

/-! ### Go `strconv` parsers -/

def isAsciiDigit (c : Char) : Bool := 48 ≤ c.toNat && c.toNat ≤ 57

def digitsToNat (l : List Char) : Nat :=
  l.foldl (fun a c => 10 * a + (c.toNat - 48)) 0

/-- `strconv.Atoi` / `strconv.ParseInt(s, 10, 64)`: an optional sign
followed by one or more ASCII digits, full-string match, with the
signed 64-bit range check `strconv` performs. -/
def parseGoInt (s : String) : Option Int :=
  let (sign, ds) : Int × List Char :=
    match s.data with
    | '+' :: r => (1, r)
    | '-' :: r => (-1, r)
    | r => (1, r)
  if ds = [] then none
  else if ds.all isAsciiDigit then
    let v : Int := sign * (digitsToNat ds : Int)
    if v < -(2 ^ 63) ∨ v > 2 ^ 63 - 1 then none else some v
  else none

/-- `strconv.ParseBool`: exactly the Go boolean literal forms. -/
def parseGoBool (s : String) : Option Bool :=
  if s = "1" ∨ s = "t" ∨ s = "T" ∨ s = "true" ∨ s = "TRUE" ∨ s = "True" then
    some true
  else if s = "0" ∨ s = "f" ∨ s = "F" ∨ s = "false" ∨ s = "FALSE" ∨ s = "False" then
    some false
  else none

/-! ### Values and the normalizer -/

/-- The dynamic (`interface`) value universe of the Go code: the
tagged variants the pipeline distinguishes.  A Go `float64` is carried
as an exact rational (the core only passes floats through); any other
dynamic type is opaque. -/
inductive Value where
  | vint : Int → Value
  | vbool : Bool → Value
  | vstr : String → Value
  | vfloat : Rat → Value
  | vother : Nat → Value
deriving DecidableEq, Repr

/-- `normalizeKey`: store all keys upper-cased. -/
def normalizeKey (key : String) : String := goToUpper key

/-- `normalizeValue` (src/configmgr/configmgr.go): a string is
trimmed, then parsed as int, then as bool, else kept as the trimmed
string; every non-string value is returned unchanged. -/
def normalizeValue : Value → Value
  | .vstr str =>
    let s := goTrimSpace str
    match parseGoInt s with
    | some i => .vint i
    | none =>
      match parseGoBool s with
      | some b => .vbool b
      | none => .vstr s
  | v => v

/-- The string case of the Value Normalizer contract exactly as the
spec words it: trim white space, attempt a base-10 full-string integer
parse, else attempt the standard boolean literal parse, else return
the trimmed string unchanged; no error is ever raised (the function is
total). -/
def normalizeStringSpec (str : String) : Value :=
  let t := goTrimSpace str
  match parseGoInt t with
  | some i => .vint i
  | none =>
    match parseGoBool t with
    | some b => .vbool b
    | none => .vstr t

/-! ### The Store -/

/-- The Store: `map[string]interface{}` modelled as an association
list; Go map update (replace the binding if present, else add). -/
abbrev Store := List (String × Value)

def getKV : Store → String → Option Value
  | [], _ => none
  | p :: rest, k => if p.1 = k then some p.2 else getKV rest k

def setKV : Store → String → Value → Store
  | [], k, v => [(k, v)]
  | p :: rest, k, v => if p.1 = k then (k, v) :: rest else p :: setKV rest k v

/-- `ConfigManager.Set`: normalize the key and the value, overwrite. -/
def Set (s : Store) (k : String) (v : Value) : Store :=
  setKV s (normalizeKey k) (normalizeValue v)

/-- `ConfigManager.Get`: normalize the key, look it up (`none` models
the nil interface Go returns for an absent key). -/
def Get (s : Store) (k : String) : Option Value :=
  getKV s (normalizeKey k)

/-- The merge loop shared by all structured loaders:
`for k, v := range tmp { cm.data[normalizeKey(k)] = normalizeValue(v) }`. -/
def mergeMap (s : Store) (m : List (String × Value)) : Store :=
  m.foldl (fun acc p => setKV acc (normalizeKey p.1) (normalizeValue p.2)) s

/-! ### The external world -/

/-- Error outcomes of the loaders, one constructor per distinct error
source in the Go code. -/
inductive Err where
  | readErr : String → Err
  | parseErr : String → Err
  | unsupported : String → Err
  | b64Err : Err
  | ctShort : Err
  | authErr : Err
  | unsupportedEnc : String → Err
deriving DecidableEq, Repr

/-- The external collaborators the core receives results from:
file system, process environment, the JSON/YAML/dotenv decoders,
base64, and the AES-GCM open operation (key derivation from the
secret folded in; `aes.NewCipher` on a 32-byte sha256 digest and
`cipher.NewGCM` never fail). -/
structure World where
  fs : String → Option (List Nat)
  statOk : String → Bool
  env : String → Option String
  jsonDec : List Nat → Option (List (String × Value))
  yamlDec : List Nat → Option (List (String × Value))
  dotenvRead : String → Option (List (String × String))
  b64 : List Nat → Option (List Nat)
  gcmOpen : List Nat → List Nat → String → Option (List Nat)

/-- `os.Getenv`: empty string when the variable is unset. -/
def World.getenv (w : World) (k : String) : String := (w.env k).getD ""

/-! ### Source loaders -/

/-- The extension switch of `LoadFromFile`: select the decoder by the
lower-cased extension, or fail with the unsupported-file-type error. -/
def decodeByExt (w : World) (path : String) (raw : List Nat) :
    Except Err (List (String × Value)) :=
  let ext := goToLower (goExt path)
  if ext = ".json" then
    match w.jsonDec raw with
    | some m => .ok m
    | none => .error (.parseErr path)
  else if ext = ".yaml" ∨ ext = ".yml" then
    match w.yamlDec raw with
    | some m => .ok m
    | none => .error (.parseErr path)
  else .error (.unsupported ext)

/-- `LoadFromFile`: read the file, decode by extension, merge.  The
result is the final store contents plus the returned error, mirroring
the in-place mutation of `cm.data`. -/
def LoadFromFile (w : World) (s : Store) (path : String) : Store × Option Err :=
  match w.fs path with
  | none => (s, some (.readErr path))
  | some raw =>
    match decodeByExt w path raw with
    | .error e => (s, some e)
    | .ok tmp => (mergeMap s tmp, none)

/-- `LoadFiles`: load the given paths in order, stopping at the first
error. -/
def LoadFiles (w : World) (s : Store) : List String → Store × Option Err
  | [] => (s, none)
  | p :: rest =>
    match LoadFromFile w s p with
    | (s1, none) => LoadFiles w s1 rest
    | (s1, some e) => (s1, some e)

/-- `LoadFromDotEnv`: read the dotenv file (default `.env`), merge
every pair after normalization.  The `os.Setenv` side effect on the
process environment is external to the store and not modelled. -/
def LoadFromDotEnv (w : World) (s : Store) (path : String) : Store × Option Err :=
  let path := if path = "" then ".env" else path
  match w.dotenvRead path with
  | none => (s, some (.readErr path))
  | some m =>
    (m.foldl (fun acc p => setKV acc (normalizeKey p.1) (normalizeValue (.vstr p.2))) s,
     none)

/-- `LoadFromSysEnv`: if the variable is present, store
`normalizeKey(val)` — the upper-cased raw string — under the
normalized key; absent variables are skipped.  The function has no
error result at all. -/
def LoadFromSysEnv (w : World) (s : Store) (key : String) : Store :=
  match w.env key with
  | some val => setKV s (normalizeKey key) (.vstr (normalizeKey val))
  | none => s

/-! ### Encrypted-file loader -/

/-- The AES-GCM standard nonce size used by `cipher.NewGCM`. -/
def nonceSize : Nat := 12

/-- `getEncryptedExt`: match the compound suffixes, falling back to
`filepath.Ext`. -/
def getEncryptedExt (path : String) : String :=
  if goHasSuffix path ".json.enc" then ".json.enc"
  else if goHasSuffix path ".yaml.enc" then ".yaml.enc"
  else if goHasSuffix path ".yml.enc" then ".yml.enc"
  else goExt path

/-- `LoadEncryptedFile`: read, base64-decode, check the nonce-size
length guard, split nonce from ciphertext, authenticated-decrypt,
select the decoder by the compound suffix, merge. -/
def LoadEncryptedFile (w : World) (s : Store) (path secret : String) :
    Store × Option Err :=
  match w.fs path with
  | none => (s, some (.readErr path))
  | some data =>
    match w.b64 data with
    | none => (s, some .b64Err)
    | some encBytes =>
      if encBytes.length < nonceSize then (s, some .ctShort)
      else
        match w.gcmOpen (encBytes.take nonceSize) (encBytes.drop nonceSize) secret with
        | none => (s, some .authErr)
        | some plaintext =>
          if getEncryptedExt path = ".json.enc" then
            match w.jsonDec plaintext with
            | none => (s, some (.parseErr path))
            | some tmp => (mergeMap s tmp, none)
          else if getEncryptedExt path = ".yaml.enc" ∨ getEncryptedExt path = ".yml.enc" then
            match w.yamlDec plaintext with
            | none => (s, some (.parseErr path))
            | some tmp => (mergeMap s tmp, none)
          else (s, some (.unsupportedEnc (getEncryptedExt path)))

/-- The failure outcome of `LoadEncryptedFile` on a path without a
supported compound suffix, stage by stage: the earliest failing stage
of the read / base64 / length-guard / decrypt pipeline determines the
error, and only when the whole pipeline succeeds is the
unsupported-suffix error reached. -/
def encFailOutcome (w : World) (path secret : String) : Err :=
  match w.fs path with
  | none => .readErr path
  | some data =>
    match w.b64 data with
    | none => .b64Err
    | some encBytes =>
      if encBytes.length < nonceSize then .ctShort
      else
        match w.gcmOpen (encBytes.take nonceSize) (encBytes.drop nonceSize) secret with
        | none => .authErr
        | some _ => .unsupportedEnc (goExt path)

/-! ### Profile resolver -/

/-- `LoadWithProfile`: resolve the extension, read the profile
environment variable, load the base file and, when the variable is
non-empty and the derived profile file exists, overlay it. -/
def LoadWithProfile (w : World) (s : Store) (envKey baseFile : String) :
    Store × Option Err :=
  let ext := goToLower (goExt baseFile)
  let env := w.getenv envKey
  if env = "" then
    if ext = ".env" then LoadFromDotEnv w s baseFile
    else LoadFromFile w s baseFile
  else if ext = ".json" ∨ ext = ".yaml" ∨ ext = ".yml" then
    match LoadFromFile w s baseFile with
    | (s1, none) =>
      let name := goTrimSuffix baseFile ext
      let profileFile := name ++ "-" ++ env ++ ext
      if w.statOk profileFile then LoadFromFile w s1 profileFile
      else (s1, none)
    | (s1, some e) => (s1, some e)
  else if ext = ".env" then
    match LoadFromDotEnv w s baseFile with
    | (s1, none) =>
      let profileFile := baseFile ++ "." ++ env
      if w.statOk profileFile then LoadFromDotEnv w s1 profileFile
      else (s1, none)
    | (s1, some e) => (s1, some e)
  else (s, some (.unsupported ext))

/-! ### Default application (the middle step of `Unmarshal`) -/

/-- The reflective view of one target-struct field: its current value
tagged with its `reflect.Kind` (string, 64-bit int, bool, or any other
kind, for which only zero-ness matters to the code). -/
inductive FVal where
  | fstr : String → FVal
  | fint : Int → FVal
  | fbool : Bool → FVal
  | fother : Bool → FVal
deriving DecidableEq, Repr

/-- One struct field as `applyDefaults` sees it: the value plus the
`default:"..."` tag (empty string when the tag is absent, exactly as
`StructTag.Get` reports it). -/
structure Field where
  val : FVal
  defTag : String
deriving DecidableEq, Repr

/-- `isZero`: `reflect.DeepEqual(v.Interface(), reflect.Zero(...))`. -/
def isZeroF : FVal → Bool
  | .fstr v => v = ""
  | .fint n => n = 0
  | .fbool v => v = false
  | .fother z => z

/-- `applyDefaults` (src/configmgr/profile.go): walk the fields; a
field with a non-empty `default` tag that currently holds its zero
value receives the parsed tag — string passthrough, `ParseInt` for int
kinds, `ParseBool` for bool (parse failure leaves the field alone and
the loop continues); on any other kind the function returns at once,
leaving the remaining fields untouched. -/
def applyDefaults : List Field → List Field
  | [] => []
  | f :: rest =>
    if f.defTag = "" then f :: applyDefaults rest
    else if isZeroF f.val then
      match f.val with
      | .fstr _ => { f with val := .fstr f.defTag } :: applyDefaults rest
      | .fint _ =>
        (match parseGoInt f.defTag with
         | some n => { f with val := .fint n }
         | none => f) :: applyDefaults rest
      | .fbool _ =>
        (match parseGoBool f.defTag with
         | some b => { f with val := .fbool b }
         | none => f) :: applyDefaults rest
      | .fother _ => f :: rest
    else f :: applyDefaults rest

/-- Default application for a single field, exactly as the spec words
it: if the field carries a default literal and currently equals its
type's zero value, parse the literal per the field's kind (string
passthrough, integer parse, boolean parse) and assign it; an
unparseable literal for a non-string kind is silently skipped. -/
def defaultFieldSpec (f : Field) : Field :=
  if f.defTag = "" then f
  else if isZeroF f.val then
    match f.val with
    | .fstr _ => { f with val := .fstr f.defTag }
    | .fint _ =>
      match parseGoInt f.defTag with
      | some n => { f with val := .fint n }
      | none => f
    | .fbool _ =>
      match parseGoBool f.defTag with
      | some b => { f with val := .fbool b }
      | none => f
    | .fother _ => f
  else f

/-! ### JSON export / import -/

/-- The JSON document tree produced by `json.MarshalIndent` of the
store (one scalar per key; opaque values stay opaque). -/
inductive JVal where
  | jnum : Rat → JVal
  | jbool : Bool → JVal
  | jstr : String → JVal
  | jother : Nat → JVal
deriving DecidableEq, Repr

/-- Encoding one store value into the JSON tree (`encoding/json`
renders both Go ints and Go floats as number tokens). -/
def toJSONVal : Value → JVal
  | .vint n => .jnum (n : Rat)
  | .vfloat q => .jnum q
  | .vbool b => .jbool b
  | .vstr s => .jstr s
  | .vother n => .jother n

/-- Decoding one JSON scalar back into a dynamic Go value:
`json.Unmarshal` into `map[string]interface{}` yields `float64` for
every number token. -/
def jsonDecodeVal : JVal → Value
  | .jnum q => .vfloat q
  | .jbool b => .vbool b
  | .jstr s => .vstr s
  | .jother n => .vother n

/-- `ToJSON` (src/configmgr/export.go), at document-tree level. -/
def ToJSON (s : Store) : List (String × JVal) :=
  s.map (fun p => (p.1, toJSONVal p.2))

/-- Re-importing a JSON document through the loaders'
normalize-and-set merge step (the loop of `LoadFromFile`). -/
def fromJSONDoc (s : Store) (doc : List (String × JVal)) : Store :=
  mergeMap s (doc.map (fun p => (p.1, jsonDecodeVal p.2)))

/-! ### Assignment sources (for the last-write-wins invariant) -/

/-- One key assignment, tagged by which source produced it: an
explicit `Set`, one merged pair of a structured-file load, of an
encrypted-file load, of a dotenv load, or a system-env load (with the
raw variable value). -/
inductive SourceOp where
  | opSet : String → Value → SourceOp
  | opFile : String → Value → SourceOp
  | opEnc : String → Value → SourceOp
  | opDotenv : String → String → SourceOp
  | opSysEnv : String → String → SourceOp
deriving DecidableEq, Repr

def opKey : SourceOp → String
  | .opSet k _ => k
  | .opFile k _ => k
  | .opEnc k _ => k
  | .opDotenv k _ => k
  | .opSysEnv k _ => k

/-- The value each source stores for its key, as written in the Go
code: `Set` and the file loaders store `normalizeValue(v)`, the dotenv
loader stores `normalizeValue` of the string, and the sys-env loader
stores the key-normalized (upper-cased) raw string. -/
def storedValue : SourceOp → Value
  | .opSet _ v => normalizeValue v
  | .opFile _ v => normalizeValue v
  | .opEnc _ v => normalizeValue v
  | .opDotenv _ v => normalizeValue (.vstr v)
  | .opSysEnv _ v => .vstr (normalizeKey v)

/-- Applying one assignment to the store: every source ends in
`cm.data[normalizeKey(k)] = ...`. -/
def applyOp (s : Store) : SourceOp → Store
  | .opSet k v => Set s k v
  | .opFile k v => setKV s (normalizeKey k) (normalizeValue v)
  | .opEnc k v => setKV s (normalizeKey k) (normalizeValue v)
  | .opDotenv k v => setKV s (normalizeKey k) (normalizeValue (.vstr v))
  | .opSysEnv k v => setKV s (normalizeKey k) (.vstr (normalizeKey v))

/-- The field kinds `applyDefaults` supports (the `switch` arms other
than `default:`). -/
def kindSupported : FVal → Bool
  | .fother _ => false
  | _ => true

/-! ### Concrete worlds for witnesses -/

/-- A world holding a YAML base file `config.yaml`, an `APP_ENV=dev`
environment, and no profile file on disk. -/
def wProfile : World where
  fs := fun p => if p = "config.yaml" then some [1] else none
  statOk := fun _ => false
  env := fun k => if k = "APP_ENV" then some "dev" else none
  jsonDec := fun _ => none
  yamlDec := fun _ => some [("APP_NAME", .vstr "BaseApp")]
  dotenvRead := fun _ => none
  b64 := fun _ => none
  gcmOpen := fun _ _ _ => none

/-- A world whose process environment holds `APP_PORT=8080` only. -/
def wSysEnv : World where
  fs := fun _ => none
  statOk := fun _ => false
  env := fun k => if k = "APP_PORT" then some "8080" else none
  jsonDec := fun _ => none
  yamlDec := fun _ => none
  dotenvRead := fun _ => none
  b64 := fun _ => none
  gcmOpen := fun _ _ _ => none

/-- A world where `a.yaml` exists and decodes while `b.yaml` is
missing. -/
def wFiles : World where
  fs := fun p => if p = "a.yaml" then some [1] else none
  statOk := fun _ => false
  env := fun _ => none
  jsonDec := fun _ => none
  yamlDec := fun _ => some [("APP_NAME", .vstr "FileA")]
  dotenvRead := fun _ => none
  b64 := fun _ => none
  gcmOpen := fun _ _ _ => none

/-- A world whose only file base64-decodes to five bytes — shorter
than the twelve-byte AES-GCM nonce. -/
def wShort : World where
  fs := fun p => if p = "config.yaml.enc" then some [1] else none
  statOk := fun _ => false
  env := fun _ => none
  jsonDec := fun _ => none
  yamlDec := fun _ => none
  dotenvRead := fun _ => none
  b64 := fun _ => some [1, 2, 3, 4, 5]
  gcmOpen := fun _ _ _ => none

/-- A world whose only file survives the whole read / base64 / length
/ decrypt pipeline, so only the suffix check can reject it. -/
def wEnc : World where
  fs := fun p => if p = "config.txt" then some [1] else none
  statOk := fun _ => false
  env := fun _ => none
  jsonDec := fun _ => none
  yamlDec := fun _ => none
  dotenvRead := fun _ => none
  b64 := fun _ => some [0, 1, 2, 3, 4, 5, 6, 7, 8, 9, 10, 11, 12, 13]
  gcmOpen := fun _ _ _ => some [65]

/-! ### Store lemmas -/

theorem getKV_setKV_self (s : Store) (k : String) (v : Value) :
    getKV (setKV s k v) k = some v := by
  induction s with
  | nil => simp [setKV, getKV]
  | cons p rest ih =>
    by_cases h : p.1 = k
    · simp [setKV, h, getKV]
    · simp [setKV, h, getKV, ih]

theorem getKV_setKV_ne (s : Store) {k k' : String} (v : Value) (h : k ≠ k') :
    getKV (setKV s k v) k' = getKV s k' := by
  induction s with
  | nil => simp [setKV, getKV, h]
  | cons p rest ih =>
    by_cases hp : p.1 = k
    · simp [setKV, getKV, hp, h]
    · simp [setKV, hp, getKV, ih]

/-! ### `filepath.Ext` lemmas -/

theorem extFromRev_cases (r acc : List Char) (hacc : '.' ∉ acc) :
    extFromRev r acc = [] ∨
      ∃ t, extFromRev r acc = '.' :: t ∧ ('.' :: t) <:+ (r.reverse ++ acc) ∧ '.' ∉ t := by
  induction r generalizing acc with
  | nil => exact Or.inl rfl
  | cons c rest ih =>
    by_cases h1 : c = '/'
    · left
      simp [extFromRev, h1]
    · by_cases h2 : c = '.'
      · right
        refine ⟨acc, by simp [extFromRev, h1, h2], ?_, hacc⟩
        subst h2
        have harr : ('.' :: rest).reverse ++ acc = rest.reverse ++ ('.' :: acc) := by
          simp [List.reverse_cons, List.append_assoc]
        rw [harr]
        exact List.suffix_append rest.reverse ('.' :: acc)
      · have hacc' : '.' ∉ c :: acc := by
          intro hmem
          rcases List.mem_cons.mp hmem with h | h
          · exact h2 h.symm
          · exact hacc h
        have hstep : extFromRev (c :: rest) acc = extFromRev rest (c :: acc) := by
          simp [extFromRev, h1, h2]
        rcases ih (c :: acc) hacc' with h | ⟨t, ht, hsuf, hnd⟩
        · left
          rw [hstep, h]
        · right
          refine ⟨t, by rw [hstep, ht], ?_, hnd⟩
          have harr : (c :: rest).reverse ++ acc = rest.reverse ++ (c :: acc) := by
            simp [List.reverse_cons, List.append_assoc]
          rw [harr]
          exact hsuf

theorem goExt_suffix (s : String) : (goExt s).data <:+ s.data := by
  have h := extFromRev_cases s.data.reverse [] (by simp)
  rcases h with h | ⟨t, ht, hsuf, _⟩
  · show extFromRev s.data.reverse [] <:+ s.data
    rw [h]
    exact List.nil_suffix
  · show extFromRev s.data.reverse [] <:+ s.data
    rw [ht]
    rw [List.reverse_reverse, List.append_nil] at hsuf
    exact hsuf

theorem goExt_noDotTail (s : String) :
    (goExt s).data = [] ∨ ∃ t, (goExt s).data = '.' :: t ∧ '.' ∉ t := by
  have h := extFromRev_cases s.data.reverse [] (by simp)
  rcases h with h | ⟨t, ht, _, hnd⟩
  · exact Or.inl h
  · exact Or.inr ⟨t, ht, hnd⟩

theorem goExt_ne_of_dot_in_tail (s e : String)
    (he : ∃ t, e.data = '.' :: t ∧ '.' ∈ t) : goExt s ≠ e := by
  rcases he with ⟨t, het, hmem⟩
  intro hcontra
  rcases goExt_noDotTail s with h | ⟨t', ht', hnd⟩
  · rw [hcontra, het] at h
    cases h
  · rw [hcontra, het] at ht'
    have : t = t' := by injection ht'
    exact hnd (this ▸ hmem)

theorem goExt_ne_compound (s : String) :
    goExt s ≠ ".json.enc" ∧ goExt s ≠ ".yaml.enc" ∧ goExt s ≠ ".yml.enc" :=
  ⟨goExt_ne_of_dot_in_tail s _ ⟨['j', 's', 'o', 'n', '.', 'e', 'n', 'c'], by decide, by decide⟩,
   goExt_ne_of_dot_in_tail s _ ⟨['y', 'a', 'm', 'l', '.', 'e', 'n', 'c'], by decide, by decide⟩,
   goExt_ne_of_dot_in_tail s _ ⟨['y', 'm', 'l', '.', 'e', 'n', 'c'], by decide, by decide⟩⟩

/-! ### Claim theorems -/

/-- Claim C1 (code bug): `normalizeValue` does NOT narrow a
whole-valued float to an integer — every non-string value, floats
included, passes through unchanged.  Evaluated at the failing input
`float64(1234)` (the value `encoding/json` produces for the number
token `1234`, whose fractional part is zero): the result is still the
float, not the integer the claim — and the repository's own test
`TestLoadFromFile_JSON` — expects. -/
theorem C1_normalizeValue_keeps_whole_float :
    normalizeValue (.vfloat 1234) = .vfloat 1234 ∧
    (1234 : Rat).den = 1 ∧
    Value.vfloat 1234 ≠ .vint 1234 := by
  refine ⟨rfl, by norm_num, by decide⟩

/-- Claim C9: for every string input, `normalizeValue` trims white
space, then returns the full-string base-10 integer parse if it
succeeds, else the standard boolean literal parse if it succeeds, else
the trimmed string itself — exactly the spec-side description
`normalizeStringSpec`; the function is total, so no error can be
raised. -/
theorem C9_normalizeValue_string (s : String) :
    normalizeValue (.vstr s) = normalizeStringSpec s := rfl

/-- Claim C2: over a target structure whose defaulted fields are of
string, integer or boolean kind, `applyDefaults` acts independently on
every field as the spec describes: a field with a default literal that
currently holds its zero value receives the literal parsed per its
kind, an unparseable literal for an int/bool field is silently
skipped, and every other field is unaffected. -/
theorem C2_applyDefaults_spec (fields : List Field)
    (h : ∀ f ∈ fields, f.defTag ≠ "" → isZeroF f.val → kindSupported f.val) :
    applyDefaults fields = fields.map defaultFieldSpec := by
  induction fields with
  | nil => rfl
  | cons f rest ih =>
    have hrest : ∀ g ∈ rest, g.defTag ≠ "" → isZeroF g.val → kindSupported g.val :=
      fun g hg => h g (List.mem_cons_of_mem f hg)
    by_cases h1 : f.defTag = ""
    · simp [applyDefaults, defaultFieldSpec, h1, ih hrest]
    · by_cases h2 : isZeroF f.val
      · have hk : kindSupported f.val := h f (List.mem_cons_self f rest) h1 h2
        cases hv : f.val with
        | fstr v =>
          rw [hv] at h2
          simp [applyDefaults, defaultFieldSpec, h1, h2, hv, ih hrest]
        | fint n =>
          rw [hv] at h2
          simp [applyDefaults, defaultFieldSpec, h1, h2, hv, ih hrest]
        | fbool b =>
          rw [hv] at h2
          simp [applyDefaults, defaultFieldSpec, h1, h2, hv, ih hrest]
        | fother z =>
          rw [hv] at hk
          cases hk
      · simp [applyDefaults, defaultFieldSpec, h1, h2, ih hrest]

/-- Witness for C2: a four-field structure — an int field with an
unparseable default, a bool field defaulting to true, a string field,
and an int field defaulting to 8080 — defaulted per the theorem. -/
theorem C2_applyDefaults_spec_witness :
    (∀ f ∈ [Field.mk (.fint 0) "abc", Field.mk (.fbool false) "true",
            Field.mk (.fstr "") "MyService", Field.mk (.fint 0) "8080"],
       f.defTag ≠ "" → isZeroF f.val → kindSupported f.val) ∧
    applyDefaults
        [Field.mk (.fint 0) "abc", Field.mk (.fbool false) "true",
         Field.mk (.fstr "") "MyService", Field.mk (.fint 0) "8080"] =
      List.map defaultFieldSpec
        [Field.mk (.fint 0) "abc", Field.mk (.fbool false) "true",
         Field.mk (.fstr "") "MyService", Field.mk (.fint 0) "8080"] :=
  ⟨by decide, C2_applyDefaults_spec _ (by decide)⟩

/-- Claim C3 (code bug): the JSON round trip does not reproduce the
store.  For the store `{APP_PORT ↦ int 1234}`, `ToJSON` emits the
number token 1234, `encoding/json` decodes every number as a float,
and the merge step's `normalizeValue` (which — the C1 bug — does not
narrow whole floats) keeps it a float: the key set survives but the
value comes back as `float 1234`, different from the original
normalized value `int 1234`. -/
theorem C3_json_round_trip_fails :
    ToJSON [("APP_PORT", .vint 1234)] = [("APP_PORT", .jnum 1234)] ∧
    fromJSONDoc [] (ToJSON [("APP_PORT", .vint 1234)]) = [("APP_PORT", .vfloat 1234)] ∧
    normalizeValue (.vint 1234) = .vint 1234 ∧
    Value.vfloat 1234 ≠ .vint 1234 := by
  refine ⟨by decide, by decide, rfl, by decide⟩

theorem applyOp_setKV (t : Store) (op : SourceOp) :
    applyOp t op = setKV t (normalizeKey (opKey op)) (storedValue op) := by
  cases op <;> rfl

theorem getKV_foldl_applyOp_ne (l : List SourceOp) (t : Store) (K : String)
    (h : ∀ o ∈ l, normalizeKey (opKey o) ≠ K) :
    getKV (List.foldl applyOp t l) K = getKV t K := by
  induction l generalizing t with
  | nil => rfl
  | cons o rest ih =>
    rw [List.foldl_cons, ih _ (fun o' ho' => h o' (List.mem_cons_of_mem o ho')),
      applyOp_setKV]
    exact getKV_setKV_ne _ _ (h o (List.mem_cons_self o rest))

/-- Claim C4: last write wins.  For every sequence of assignments
mixing explicit `Set` calls with file, encrypted-file, dotenv and
system-env merges, if the last assignment touching normalized key `k`
is `op`, then `Get k` afterwards returns exactly the value `op`
stored, whatever the sources of the earlier assignments. -/
theorem C4_last_write_wins (s : Store) (pre post : List SourceOp) (op : SourceOp)
    (h : ∀ o ∈ post, normalizeKey (opKey o) ≠ normalizeKey (opKey op)) :
    Get (List.foldl applyOp s (pre ++ op :: post)) (opKey op) = some (storedValue op) := by
  rw [List.foldl_append, List.foldl_cons]
  unfold Get
  rw [getKV_foldl_applyOp_ne post _ _ h, applyOp_setKV]
  exact getKV_setKV_self _ _ _

/-- Witness for C4: a file merge of `app_port` followed by an explicit
`Set` of `APP_PORT` and a later dotenv assignment to a different key:
`Get "APP_PORT"` returns the `Set` value. -/
theorem C4_last_write_wins_witness :
    (∀ o ∈ [SourceOp.opDotenv "OTHER" "x"],
       normalizeKey (opKey o) ≠ normalizeKey (opKey (SourceOp.opSet "APP_PORT" (.vstr "3000")))) ∧
    Get (List.foldl applyOp []
          ([SourceOp.opFile "app_port" (.vstr "8080")] ++
            SourceOp.opSet "APP_PORT" (.vstr "3000") :: [SourceOp.opDotenv "OTHER" "x"]))
        (opKey (SourceOp.opSet "APP_PORT" (.vstr "3000"))) =
      some (storedValue (SourceOp.opSet "APP_PORT" (.vstr "3000"))) :=
  ⟨by decide, C4_last_write_wins [] _ _ _ (by decide)⟩

/-- Claim C6: `LoadFromSysEnv` has no error outcome at all; an absent
variable leaves the store untouched, and a present variable `v` is
stored under the normalized key as the upper-cased raw string
`.vstr (goToUpper v)` — a string, not the coerced value the Value
Normalizer would produce. -/
theorem C6_LoadFromSysEnv_spec (w : World) (s : Store) (key : String) :
    (w.env key = none → LoadFromSysEnv w s key = s) ∧
    (∀ v, w.env key = some v →
       LoadFromSysEnv w s key = setKV s (normalizeKey key) (.vstr (goToUpper v)) ∧
       Get (LoadFromSysEnv w s key) key = some (.vstr (goToUpper v))) := by
  refine ⟨fun h => by simp [LoadFromSysEnv, h], fun v h => ⟨?_, ?_⟩⟩
  · simp [LoadFromSysEnv, h, normalizeKey]
  · simp [LoadFromSysEnv, h, Get, normalizeKey, getKV_setKV_self]

/-- Witness for C6: with `APP_PORT=8080` in the environment the loader
stores the raw string `"8080"`, which differs from the int 8080 that
value normalization would have produced. -/
theorem C6_LoadFromSysEnv_spec_witness :
    wSysEnv.env "APP_PORT" = some "8080" ∧
    LoadFromSysEnv wSysEnv [] "APP_PORT" =
      setKV [] (normalizeKey "APP_PORT") (.vstr (goToUpper "8080")) ∧
    Get (LoadFromSysEnv wSysEnv [] "APP_PORT") "APP_PORT" =
      some (.vstr (goToUpper "8080")) ∧
    Value.vstr (goToUpper "8080") ≠ normalizeValue (.vstr "8080") := by
  refine ⟨rfl, ?_, ?_, by decide⟩
  · exact ((C6_LoadFromSysEnv_spec wSysEnv [] "APP_PORT").2 "8080" rfl).1
  · exact ((C6_LoadFromSysEnv_spec wSysEnv [] "APP_PORT").2 "8080" rfl).2

theorem LoadFromFile_of_err {w : World} {s : Store} {p : String} {e : Err}
    (h : (LoadFromFile w s p).2 = some e) : LoadFromFile w s p = (s, some e) := by
  unfold LoadFromFile at h ⊢
  cases hfs : w.fs p with
  | none => simp_all
  | some raw =>
    cases hd : decodeByExt w p raw with
    | error e' => simp_all
    | ok tmp => simp_all

/-- Claim C7: a failing file aborts `LoadFiles` with that file's
error; everything merged from the files before it stays in the store
(and stays queryable), and the files after it are never attempted (the
result does not depend on `rest`). -/
theorem C7_LoadFiles_first_error (w : World) (s s1 : Store) (good : List String)
    (bad : String) (rest : List String) (e : Err)
    (hgood : LoadFiles w s good = (s1, none))
    (hbad : (LoadFromFile w s1 bad).2 = some e) :
    LoadFiles w s (good ++ bad :: rest) = (s1, some e) ∧
    ∀ k, Get (LoadFiles w s (good ++ bad :: rest)).1 k = Get s1 k := by
  suffices hmain : LoadFiles w s (good ++ bad :: rest) = (s1, some e) by
    exact ⟨hmain, fun k => by rw [hmain]⟩
  induction good generalizing s with
  | nil =>
    have hs : s = s1 := by
      have h2 := hgood
      simp [LoadFiles] at h2
      exact h2
    subst hs
    simp [LoadFiles, LoadFromFile_of_err hbad]
  | cons p gs ih =>
    rw [List.cons_append]
    unfold LoadFiles at hgood ⊢
    cases hp : LoadFromFile w s p with
    | mk s' oe =>
      cases oe with
      | none =>
        rw [hp] at hgood
        exact ih s' hgood
      | some e' =>
        rw [hp] at hgood
        simp at hgood

/-- Witness for C7: `LoadFiles(a.yaml, b.yaml)` where `b.yaml` does
not exist: the call reports the missing `b.yaml` and the store keeps
the contents of `a.yaml`. -/
theorem C7_LoadFiles_first_error_witness :
    LoadFiles wFiles [] ["a.yaml"] = ([("APP_NAME", .vstr "FileA")], none) ∧
    (LoadFromFile wFiles [("APP_NAME", .vstr "FileA")] "b.yaml").2 =
      some (.readErr "b.yaml") ∧
    LoadFiles wFiles [] (["a.yaml"] ++ "b.yaml" :: []) =
      ([("APP_NAME", .vstr "FileA")], some (.readErr "b.yaml")) ∧
    ∀ k, Get (LoadFiles wFiles [] (["a.yaml"] ++ "b.yaml" :: [])).1 k =
      Get [("APP_NAME", .vstr "FileA")] k := by
  refine ⟨by decide, by decide, ?_⟩
  exact C7_LoadFiles_first_error wFiles [] _ ["a.yaml"] "b.yaml" [] _ (by decide) (by decide)

/-- Claim C5: with a non-empty profile environment value `ev` and a
base file with extension `.json`, `.yaml` or `.yml`, `LoadWithProfile`
loads the base file first, derives the profile path by replacing the
base name with base-without-extension, a dash, the environment value
and the extension, overlays that file when it exists on disk, and
succeeds with only the base file when it does not. -/
theorem C5_LoadWithProfile_structured (w : World) (s : Store) (envKey baseFile ev : String)
    (henv : w.env envKey = some ev) (hev : ev ≠ "")
    (hext : goExt baseFile = ".json" ∨ goExt baseFile = ".yaml" ∨ goExt baseFile = ".yml") :
    LoadWithProfile w s envKey baseFile =
      (let profileFile :=
        String.mk (baseFile.data.take (baseFile.data.length - (goExt baseFile).data.length)) ++
          "-" ++ ev ++ goExt baseFile
       match LoadFromFile w s baseFile with
       | (s1, none) =>
         if w.statOk profileFile then LoadFromFile w s1 profileFile else (s1, none)
       | (s1, some e) => (s1, some e)) := by
  have hlow : goToLower (goExt baseFile) = goExt baseFile := by
    rcases hext with h | h | h <;> rw [h] <;> decide
  have hgetenv : w.getenv envKey = ev := by simp [World.getenv, henv]
  have hsuffix : goHasSuffix baseFile (goExt baseFile) = true :=
    decide_eq_true (goExt_suffix baseFile)
  have htrim : goTrimSuffix baseFile (goExt baseFile) =
      ⟨baseFile.data.take (baseFile.data.length - (goExt baseFile).data.length)⟩ := by
    simp [goTrimSuffix, hsuffix]
  simp only [LoadWithProfile, hgetenv, hlow, htrim]
  rw [if_neg hev, if_pos hext]

/-- Witness for C5: base `config.yaml`, `APP_ENV=dev`, no
`config-dev.yaml` on disk — the call equals the base-then-maybe-
profile description of the theorem. -/
theorem C5_LoadWithProfile_structured_witness :
    wProfile.env "APP_ENV" = some "dev" ∧ "dev" ≠ "" ∧ goExt "config.yaml" = ".yaml" ∧
    LoadWithProfile wProfile [] "APP_ENV" "config.yaml" =
      (let profileFile :=
        String.mk
            (("config.yaml" : String).data.take
              (("config.yaml" : String).data.length - (goExt "config.yaml").data.length)) ++
          "-" ++ "dev" ++ goExt "config.yaml"
       match LoadFromFile wProfile [] "config.yaml" with
       | (s1, none) =>
         if wProfile.statOk profileFile then LoadFromFile wProfile s1 profileFile
         else (s1, none)
       | (s1, some e) => (s1, some e)) :=
  ⟨by decide, by decide, by decide,
   C5_LoadWithProfile_structured wProfile [] "APP_ENV" "config.yaml" "dev"
     (by decide) (by decide) (Or.inr (Or.inl (by decide)))⟩

/-- Claim C8: whenever the base64-decoded bytes of the input file are
shorter than the twelve-byte AES-GCM nonce, `LoadEncryptedFile`
returns the "ciphertext too short" error with the store untouched; the
nonce/ciphertext split and everything after it are unreachable (the
result does not depend on `gcmOpen` or the decoders at all, since the
world `w` is arbitrary). -/
theorem C8_LoadEncryptedFile_short_ciphertext (w : World) (s : Store)
    (path secret : String) (data enc : List Nat)
    (hfs : w.fs path = some data) (hb64 : w.b64 data = some enc)
    (hlen : enc.length < nonceSize) :
    LoadEncryptedFile w s path secret = (s, some .ctShort) := by
  unfold LoadEncryptedFile
  simp [hfs, hb64, hlen]

/-- Witness for C8: a file whose contents base64-decode to five bytes
produces the ciphertext-too-short error. -/
theorem C8_LoadEncryptedFile_short_ciphertext_witness :
    wShort.fs "config.yaml.enc" = some [1] ∧
    wShort.b64 [1] = some [1, 2, 3, 4, 5] ∧
    ([1, 2, 3, 4, 5] : List Nat).length < nonceSize ∧
    LoadEncryptedFile wShort [] "config.yaml.enc" "secret" = ([], some .ctShort) :=
  ⟨by decide, by decide, by decide,
   C8_LoadEncryptedFile_short_ciphertext wShort [] "config.yaml.enc" "secret" [1]
     [1, 2, 3, 4, 5] (by decide) (by decide) (by decide)⟩

/-- Claim C10: on a path without a supported compound suffix,
`LoadEncryptedFile` reports the earliest failure of the
read / base64 / length-guard / decrypt pipeline, and reports the
unsupported-suffix error only when that whole pipeline succeeds; in
every such case the store is returned unchanged.  (`encFailOutcome`
spells the claimed stage-by-stage outcome.) -/
theorem C10_LoadEncryptedFile_suffix_checked_last (w : World) (s : Store)
    (path secret : String)
    (h1 : goHasSuffix path ".json.enc" = false)
    (h2 : goHasSuffix path ".yaml.enc" = false)
    (h3 : goHasSuffix path ".yml.enc" = false) :
    LoadEncryptedFile w s path secret = (s, some (encFailOutcome w path secret)) := by
  have hne := goExt_ne_compound path
  have hext : getEncryptedExt path = goExt path := by
    simp [getEncryptedExt, h1, h2, h3]
  unfold LoadEncryptedFile encFailOutcome
  cases hfs : w.fs path with
  | none => simp
  | some data =>
    cases hb : w.b64 data with
    | none => simp [hb]
    | some enc =>
      by_cases hlen : enc.length < nonceSize
      · simp [hb, hlen]
      · cases hgcm : w.gcmOpen (enc.take nonceSize) (enc.drop nonceSize) secret with
        | none => simp [hb, hlen, hgcm]
        | some pt => simp [hb, hlen, hgcm, hext, hne.1, hne.2.1, hne.2.2]

/-- Witness for C10: the file `config.txt` passes read, base64, the
length guard and decryption in `wEnc`, so only then is the unsupported
suffix `.txt` reported, with the store unchanged. -/
theorem C10_LoadEncryptedFile_suffix_checked_last_witness :
    goHasSuffix "config.txt" ".json.enc" = false ∧
    goHasSuffix "config.txt" ".yaml.enc" = false ∧
    goHasSuffix "config.txt" ".yml.enc" = false ∧
    LoadEncryptedFile wEnc [] "config.txt" "secret" =
      ([], some (encFailOutcome wEnc "config.txt" "secret")) ∧
    encFailOutcome wEnc "config.txt" "secret" = .unsupportedEnc ".txt" :=
  ⟨by decide, by decide, by decide,
   C10_LoadEncryptedFile_suffix_checked_last wEnc [] "config.txt" "secret"
     (by decide) (by decide) (by decide),
   by decide⟩

end ConfigMgr
